import Mathlib

/-!
Verification of `scripts/add-map.py`: a line-oriented editor that inserts a
map entry into the `"mapgroups" / "<group>" / "maps"` block of a Valve
KeyValues configuration file and optionally appends a Workshop ID to a flat
subscription list file.

A document is modelled as the list of its lines, each line being the list of
its characters (Python `str` lines produced by `splitlines(keepends=True)`).
Every Python loop is embedded as a structural recursion over the suffix of
the line list starting at the loop's current index; the index itself is
carried along so that returned positions are absolute, exactly as in the
source.
-/

set_option autoImplicit false
set_option linter.unusedVariables false

namespace AddMap

/-- One line of text, as its character sequence (a Python `str`). -/
abbrev Line := List Char

/-- A document: the ordered sequence of its lines, trailing newlines kept. -/
abbrev Document := List Line

/-- Characters removed by Python's `str.strip` / `str.lstrip` with no
argument: space, tab, newline, carriage return, vertical tab, form feed. -/
def isPySpace (c : Char) : Bool :=
  c = ' ' || c = '\t' || c = '\n' || c = '\r' || c = '\x0b' || c = '\x0c'

/-- The opening-brace character (source: the literal `"{"`). -/
def lbrace : Char := '\x7b'

/-- The closing-brace character (source: the literal `"}"`). -/
def rbrace : Char := '\x7d'

/-- Python `line.lstrip()`. -/
def lstrip (l : Line) : Line := l.dropWhile isPySpace

/-- Python `line.rstrip()`. -/
def rstrip (l : Line) : Line := (l.reverse.dropWhile isPySpace).reverse

/-- Python `line.strip()`. -/
def strip (l : Line) : Line := rstrip (lstrip l)

/-- Source line 159: `lines[i][: len(lines[i]) - len(lines[i].lstrip())]`,
the leading whitespace of a line. -/
def leadingWs (l : Line) : Line := l.take (l.length - (lstrip l).length)

/-- Python `"{" in line` (source lines 78, 89, 105, 121, 144). -/
def hasBrace (l : Line) : Bool := l.contains lbrace

/-- Net brace count of one line: `lines[i].count("{") - lines[i].count("}")`.
The source guards each count with an `in` test, which is redundant because
the count of an absent character is zero. -/
def braceDelta (l : Line) : Int := (l.count lbrace : Int) - (l.count rbrace : Int)

/-- Source line 163: the fallback indentation `"\t" * 4`. -/
def tabs4 : Line := ['\t', '\t', '\t', '\t']

/-- Python `f'"{name}"'`: the name wrapped in double quotes. -/
def quoted (name : Line) : Line := '"' :: name ++ ['"']

/-- The literal token `"mapgroups"` including its quotes (source line 68). -/
def mapgroupsTok : Line := quoted ("mapgroups").data

/-- The literal token `"maps"` including its quotes (source line 118). -/
def mapsTok : Line := quoted ("maps").data

/-- Python `str.split(sep)` for a one-character separator. -/
def pySplit (sep : Char) : Line → List Line
  | [] => [[]]
  | c :: cs =>
    if c = sep then [] :: pySplit sep cs
    else
      match pySplit sep cs with
      | [] => [[c]]
      | h :: t => (c :: h) :: t

/-- Python `text.splitlines(keepends=True)` restricted to `"\n"` terminators
(the only terminator occurring in the files this tool edits). -/
def splitlinesKeep : Line → List Line
  | [] => []
  | c :: cs =>
    if c = '\n' then ['\n'] :: splitlinesKeep cs
    else
      match splitlinesKeep cs with
      | [] => [[c]]
      | h :: t => (c :: h) :: t

/-- Python `text.splitlines()` (terminators dropped), restricted to `"\n"`. -/
def splitlinesNoKeep : Line → List Line
  | [] => []
  | c :: cs =>
    if c = '\n' then [] :: splitlinesNoKeep cs
    else
      match splitlinesNoKeep cs with
      | [] => [[c]]
      | h :: t => (c :: h) :: t

/-- Python `list.insert(p, a)`: clamping insertion at index `p`. -/
def pyInsert (p : Nat) (a : Line) (doc : Document) : Document :=
  doc.take p ++ a :: doc.drop p

/-- The error taxonomy of `AddMapError`, one constructor per distinct raise
site of the source (spec section 7). -/
inductive AddMapError where
  | missingFile
  | sectionNotFound
  | malformedSection
  | groupNotFound
  | malformedGroup
  | mapsBlockNotFound
  | malformedMapsBlock
deriving DecidableEq

/-- Loop `while i < len(lines)` advancing until `pred` holds on the current
line: returns the first absolute index `≥ i` whose line satisfies `pred`.
`suffix` is `doc.drop i` for the absolute index `i` carried alongside. -/
def scanFirstAux (pred : Line → Bool) : List Line → Nat → Option Nat
  | [], _ => none
  | l :: rest, i => if pred l then some i else scanFirstAux pred rest (i + 1)

/-- First index `≥ i` of a line of `doc` satisfying `pred` (source lines
67-71, 78-79, 105-106, 121-122). -/
def scanFirst (pred : Line → Bool) (doc : Document) (i : Nat) : Option Nat :=
  scanFirstAux pred (doc.drop i) i

/-- Source line 68: `lines[i].lstrip().startswith('"mapgroups"')`. -/
def isMapgroupsLine (l : Line) : Bool := mapgroupsTok.isPrefixOf (lstrip l)

/-- Source lines 87-97: walk the mapgroups block with a brace-depth counter,
looking for a line whose stripped content starts with the quoted group name.
The brace update of the current line only feeds the next iteration; the
group test is made on every line entered while `depth > 0`. -/
def findGroupAux (gq : Line) : List Line → Nat → Int → Option Nat
  | [], _, _ => none
  | l :: rest, i, d =>
    if d > 0 then
      if gq.isPrefixOf (strip l) then some i
      else findGroupAux gq rest (i + 1) (d + braceDelta l)
    else none

/-- Source lines 85-97, entered with `i = ib + 1` and `brace_depth = 1`. -/
def findGroupFrom (doc : Document) (gq : Line) (i : Nat) (d : Int) : Option Nat :=
  findGroupAux gq (doc.drop i) i d

/-- Source lines 130-140: from line `m` with depth `d`, add each line's brace
delta and return the first absolute index where the depth reaches exactly 0
(the closing-brace line). Falling off the end, or the depth going negative,
yields `none` (the Python loop then raises). -/
def walkToCloseAux : List Line → Nat → Int → Option Nat
  | [], _, _ => none
  | l :: rest, m, d =>
    if d > 0 then
      if d + braceDelta l = 0 then some m
      else walkToCloseAux rest (m + 1) (d + braceDelta l)
    else none

/-- Source lines 130-140 with absolute start index `m`. -/
def walkToClose (doc : Document) (m : Nat) (d : Int) : Option Nat :=
  walkToCloseAux (doc.drop m) m d

/-- Source lines 114-150: scan the group's body (`suffix = doc.drop j`) for a
line whose stripped content starts with `"maps"`, tracking the group brace
depth. On a match at line `j`, the opening brace is searched from `j` itself
(`scanFirstAux hasBrace (l :: rest) j`, the suffix at `j`), and the closing
brace by a depth walk from `k + 1`; `(l :: rest).drop (k + 1 - j)` is
`doc.drop (k + 1)` since `k ≥ j`. Loop exhaustion and depth exhaustion both
raise `No "maps" block found` (source line 150). -/
def findMapsAux : List Line → Nat → Int → Except AddMapError (Nat × Nat)
  | [], _, _ => .error .mapsBlockNotFound
  | l :: rest, j, d =>
    if d > 0 then
      if mapsTok.isPrefixOf (strip l) then
        match scanFirstAux hasBrace (l :: rest) j with
        | none => .error .malformedMapsBlock
        | some k =>
          match walkToCloseAux ((l :: rest).drop (k + 1 - j)) (k + 1) 1 with
          | none => .error .malformedMapsBlock
          | some me => .ok (k + 1, me)
      else findMapsAux rest (j + 1) (d + braceDelta l)
    else .error .mapsBlockNotFound

/-- Source lines 110-150 with absolute start index `j` and depth 1. -/
def findMapsIn (doc : Document) (j : Nat) (d : Int) : Except AddMapError (Nat × Nat) :=
  findMapsAux (doc.drop j) j d

/-- Source line 157, with Python's `and`/`or` precedence kept exactly:
`stripped.startswith('"') and '"' in stripped and '\t' in lines[i] or '\t' in lines[i]`. -/
def inferCond1 (l : Line) : Bool :=
  (['"'].isPrefixOf (strip l) && (strip l).contains '"' && l.contains '\t') || l.contains '\t'

/-- Source line 160: `stripped.startswith('"') and '\t' not in lines[i]`. -/
def inferCond2 (l : Line) : Bool :=
  ['"'].isPrefixOf (strip l) && !(l.contains '\t')

/-- Source lines 155-163: the body of `infer_maps_indent`'s `for` loop over
the slice `lines[start:end]`. -/
def inferAux : List Line → Line
  | [] => tabs4
  | l :: rest =>
    if inferCond1 l then leadingWs l
    else if inferCond2 l then leadingWs l
    else inferAux rest

/-- Source lines 153-163: `infer_maps_indent(lines, start_idx, end_idx)`. -/
def infer_maps_indent (doc : Document) (s e : Nat) : Line :=
  inferAux ((doc.drop s).take (e - s))

/-- Source line 171: `stripped.startswith('"') and '"' in stripped`. -/
def isEntryLine (st : Line) : Bool := ['"'].isPrefixOf st && st.contains '"'

/-- Source line 172: `stripped.split('"')[1]`, total via `getD` (the index
always exists when the line starts with a quote). -/
def keyOf (st : Line) : Line := (pySplit '"' st).getD 1 []

/-- Source lines 166-174: the body of `current_maps_in_block`'s loop over
`lines[start:end]`. -/
def currentMapsAux : List Line → List Line
  | [] => []
  | l :: rest =>
    if isEntryLine (strip l) then keyOf (strip l) :: currentMapsAux rest
    else currentMapsAux rest

/-- Source lines 166-174: `current_maps_in_block(lines, start_idx, end_idx)`. -/
def current_maps_in_block (doc : Document) (s e : Nat) : List Line :=
  currentMapsAux ((doc.drop s).take (e - s))

/-- Source lines 56-150: `find_group_and_maps_block(lines, group_name)`,
returning `(group_start, maps_start_idx, maps_end_idx, indent)`. -/
def find_group_and_maps_block (doc : Document) (group : Line) :
    Except AddMapError (Nat × Nat × Nat × Line) :=
  match scanFirst isMapgroupsLine doc 0 with
  | none => .error .sectionNotFound
  | some i0 =>
    match scanFirst hasBrace doc (i0 + 1) with
    | none => .error .malformedSection
    | some ib =>
      match findGroupFrom doc (quoted group) (ib + 1) 1 with
      | none => .error .groupNotFound
      | some gs =>
        match scanFirst hasBrace doc gs with
        | none => .error .malformedGroup
        | some jb =>
          match findMapsIn doc (jb + 1) 1 with
          | .error e => .error e
          | .ok (ms, me) => .ok (gs, ms, me, infer_maps_indent doc ms me)

/-- Python truthiness of the optional `workshop_id` argument: `None` and the
empty string are falsy (source lines 178, 235). -/
def truthy : Option Line → Bool
  | none => false
  | some w => !w.isEmpty

/-- Source lines 177-180: `format_map_key(map_name, workshop_id)`. -/
def format_map_key (map_name : Line) (workshop_id : Option Line) : Line :=
  if truthy workshop_id then ("workshop/").data ++ workshop_id.getD [] ++ '/' :: map_name
  else map_name

/-- Source line 184: `f'{indent}"{map_key}"\t\t""\n'`. -/
def entryLine (indent key : Line) : Line :=
  indent ++ '"' :: (key ++ ['"', '\t', '\t', '"', '"', '\n'])

/-- Source lines 183-189: `insert_map`; `lines.insert(start_idx, ...)` for
position `"start"`, `lines.insert(end_idx, ...)` otherwise. -/
def insert_map (doc : Document) (s e : Nat) (indent key pos : Line) : Document :=
  if pos = ("start").data then pyInsert s (entryLine indent key) doc
  else pyInsert e (entryLine indent key) doc

/-- The Document-level core of `add_map_to_group` (source lines 217-233):
locate, duplicate-check, insert; returns the resulting document and whether
an insertion happened (`false` = "already present", a benign skip). -/
def add_map_doc (doc : Document) (group map_name : Line) (workshop_id : Option Line)
    (pos : Line) : Except AddMapError (Document × Bool) :=
  match find_group_and_maps_block doc group with
  | .error e => .error e
  | .ok (_gs, ms, me, indent) =>
    if format_map_key map_name workshop_id ∈ current_maps_in_block doc ms me then
      .ok (doc, false)
    else .ok (insert_map doc ms me indent (format_map_key map_name workshop_id) pos, true)

/-- The three files the tool touches, each as `none` (absent) or `some`
character content. -/
structure FS where
  gamemodes : Option Line
  backup : Option Line
  subscribed : Option Line
deriving DecidableEq

/-- Source lines 39-43: `read_lines` — a missing file raises `Missing file`,
any present file (the empty one included) is split into lines. -/
def read_lines : Option Line → Except AddMapError Document
  | none => .error .missingFile
  | some t => .ok (splitlinesKeep t)

/-- Source line 47: `write_lines` serializes by concatenating the lines. -/
def joinDoc (doc : Document) : Line := doc.flatten

/-- Source lines 193-196: the set of non-blank stripped lines of the
subscription file (empty when the file is absent). -/
def existingIds (content : Option Line) : List Line :=
  ((splitlinesNoKeep (content.getD [])).map strip).filter (fun l => !l.isEmpty)

/-- Source lines 192-205: `add_workshop_id` on the subscription file's
content; returns the new content and the reported `added` flag. -/
def add_workshop_id (content : Option Line) (workshop_id : Line) (dry : Bool) :
    Option Line × Bool :=
  if workshop_id ∈ existingIds content then (content, false)
  else if dry then (content, true)
  else (some (content.getD [] ++ workshop_id ++ ['\n']), true)

/-- Source lines 235-240: the tail of `add_map_to_group` that runs
`add_workshop_id` when the workshop id is truthy, recording its `added`
flag in the outcome. -/
def finishWorkshop (fs1 : FS) (inserted : Bool) (workshop_id : Option Line) (dry : Bool) :
    Except AddMapError (FS × (Bool × Option Bool)) :=
  if truthy workshop_id then
    .ok ({ fs1 with subscribed := (add_workshop_id fs1.subscribed (workshop_id.getD []) dry).1 },
         (inserted, some (add_workshop_id fs1.subscribed (workshop_id.getD []) dry).2))
  else .ok (fs1, (inserted, none))

/-- Source lines 208-240: `add_map_to_group` over the file-system model.
The result carries the new file system, the `inserted` flag (line 233 vs the
line-224 skip) and, when the workshop branch runs, the `added` flag of
`add_workshop_id`. On the insert path the source first copies the primary
file to the backup path (line 228) and then rewrites the primary file with
the mutated lines (line 232), both skipped under dry-run. -/
def add_map_to_group (fs : FS) (group map_name : Line) (workshop_id : Option Line)
    (dry : Bool) (pos : Line) : Except AddMapError (FS × (Bool × Option Bool)) :=
  match read_lines fs.gamemodes with
  | .error e => .error e
  | .ok lines =>
    match find_group_and_maps_block lines group with
    | .error e => .error e
    | .ok (_gs, ms, me, indent) =>
      if format_map_key map_name workshop_id ∈ current_maps_in_block lines ms me then
        finishWorkshop fs false workshop_id dry
      else
        finishWorkshop
          (if dry then fs
           else { fs with
                  backup := fs.gamemodes,
                  gamemodes := some (joinDoc
                    (insert_map lines ms me indent
                      (format_map_key map_name workshop_id) pos)) })
          true workshop_id dry

/-- Convert a list of string literals into a `Document`. -/
def docOf (ls : List String) : Document := ls.map String.data

/-- Modelled from the spec, claim C1's reading of indentation inference: the
first line of the block whose trimmed content starts with a double quote
yields its leading whitespace; otherwise four tabs. -/
def claimIndentAux : List Line → Line
  | [] => tabs4
  | l :: rest => if ['"'].isPrefixOf (strip l) then leadingWs l else claimIndentAux rest

/-- Claim C1's inferred indentation over the block slice. -/
def claim_infer_indent (doc : Document) (s e : Nat) : Line :=
  claimIndentAux ((doc.drop s).take (e - s))

/-- The condition the source's `infer_maps_indent` actually selects on: the
line contains a tab, or its trimmed content starts with a double quote
(line 157's `and ... or` collapses the quote tests into the tab test). -/
def amendedCond (l : Line) : Bool := l.contains '\t' || ['"'].isPrefixOf (strip l)

/-- Amended indentation inference: leading whitespace of the first line that
contains a tab or starts (trimmed) with a quote; otherwise four tabs. -/
def amendedIndentAux : List Line → Line
  | [] => tabs4
  | l :: rest => if amendedCond l then leadingWs l else amendedIndentAux rest

/-- Amended indentation inference over the block slice. -/
def amended_infer_indent (doc : Document) (s e : Nat) : Line :=
  amendedIndentAux ((doc.drop s).take (e - s))

/-- The brace depth, starting at `d`, stays strictly positive after every
line of `L`: an unterminated block in the sense of claim C7. -/
def depthStaysPos : List Line → Int → Bool
  | [], _ => true
  | l :: rest, d => (0 < d + braceDelta l) && depthStaysPos rest (d + braceDelta l)

/-- A well-formed ten-line document with one group and one map entry. -/
def exdocA : Document := docOf
  [ "\"mapgroups\"\n"
  , "\x7b\n"
  , "\t\"mg_x\"\n"
  , "\t\x7b\n"
  , "\t\t\"maps\"\n"
  , "\t\t\x7b\n"
  , "\t\t\t\"de_a\"\t\t\"\"\n"
  , "\t\t\x7d\n"
  , "\t\x7d\n"
  , "\x7d\n" ]

/-- `exdocA` after inserting `"de_b"` at the end of the maps block. -/
def exdocA1 : Document := docOf
  [ "\"mapgroups\"\n"
  , "\x7b\n"
  , "\t\"mg_x\"\n"
  , "\t\x7b\n"
  , "\t\t\"maps\"\n"
  , "\t\t\x7b\n"
  , "\t\t\t\"de_a\"\t\t\"\"\n"
  , "\t\t\t\"de_b\"\t\t\"\"\n"
  , "\t\t\x7d\n"
  , "\t\x7d\n"
  , "\x7d\n" ]

/-- A document whose maps block holds a tab-indented comment line before a
space-indented entry line: the two indentation readings disagree here. -/
def exdocB : Document := docOf
  [ "\"mapgroups\"\n"
  , "\x7b\n"
  , "\t\"mg_x\"\n"
  , "\t\x7b\n"
  , "\t\t\"maps\"\n"
  , "\t\t\x7b\n"
  , "\t\t\t// comment\n"
  , "   \"de_a\"\t\t\"\"\n"
  , "\t\t\x7d\n"
  , "\t\x7d\n"
  , "\x7d\n" ]

/-- A document whose mapgroups block is opened but never closed, and which
contains no group named `mg_missing`. -/
def exdocC : Document := docOf
  [ "\"mapgroups\"\n", "\x7b\n", "\t\"other\"\n" ]

/-- A document whose maps block already holds the workshop-qualified key
`workshop/12345/de_dust2`. -/
def exdocE : Document := docOf
  [ "\"mapgroups\"\n"
  , "\x7b\n"
  , "\t\"mg_x\"\n"
  , "\t\x7b\n"
  , "\t\t\"maps\"\n"
  , "\t\t\x7b\n"
  , "\t\t\t\"workshop/12345/de_dust2\"\t\t\"\"\n"
  , "\t\t\x7d\n"
  , "\t\x7d\n"
  , "\x7d\n" ]

/-- `exdocE` after additionally inserting the bare key `de_dust2`. -/
def exdocE1 : Document := docOf
  [ "\"mapgroups\"\n"
  , "\x7b\n"
  , "\t\"mg_x\"\n"
  , "\t\x7b\n"
  , "\t\t\"maps\"\n"
  , "\t\t\x7b\n"
  , "\t\t\t\"workshop/12345/de_dust2\"\t\t\"\"\n"
  , "\t\t\t\"de_dust2\"\t\t\"\"\n"
  , "\t\t\x7d\n"
  , "\t\x7d\n"
  , "\x7d\n" ]

/-! Elementary facts about `List.getD` and `pyInsert`. -/

theorem getD_nil {α : Type} (n : Nat) (x : α) : ([] : List α).getD n x = x := by
  cases n <;> rfl

theorem getD_cons_zero {α : Type} (a : α) (l : List α) (x : α) : (a :: l).getD 0 x = a := rfl

theorem getD_cons_succ {α : Type} (a : α) (l : List α) (n : Nat) (x : α) :
    (a :: l).getD (n + 1) x = l.getD n x := rfl

theorem pyInsert_zero (a : Line) (doc : Document) : pyInsert 0 a doc = a :: doc := by
  simp [pyInsert]

theorem pyInsert_cons (p : Nat) (a l : Line) (rest : Document) :
    pyInsert (p + 1) a (l :: rest) = l :: pyInsert p a rest := by
  simp [pyInsert]

theorem pyInsert_length (p : Nat) (a : Line) (doc : Document) :
    (pyInsert p a doc).length = doc.length + 1 := by
  simp [pyInsert]
  omega

theorem pyInsert_getD_lt (doc : Document) (p j : Nat) (a x : Line)
    (hj : j < p) (hp : p ≤ doc.length) :
    (pyInsert p a doc).getD j x = doc.getD j x := by
  induction doc generalizing p j with
  | nil => simp only [List.length_nil, Nat.le_zero] at hp; omega
  | cons l rest ih =>
    match p, hj with
    | p + 1, hj =>
      rw [pyInsert_cons]
      match j with
      | 0 => rfl
      | j + 1 =>
        rw [getD_cons_succ, getD_cons_succ]
        exact ih p j (by omega) (by simpa using hp)

theorem pyInsert_getD_ge (doc : Document) (p j : Nat) (a x : Line) (hj : p ≤ j) :
    (pyInsert p a doc).getD (j + 1) x = doc.getD j x := by
  induction doc generalizing p j with
  | nil =>
    simp only [pyInsert, List.take_nil, List.drop_nil, List.nil_append]
    rw [getD_cons_succ, getD_nil]
  | cons l rest ih =>
    match p with
    | 0 => rw [pyInsert_zero, getD_cons_succ]
    | p + 1 =>
      rw [pyInsert_cons]
      match j, hj with
      | j + 1, hj =>
        rw [getD_cons_succ, getD_cons_succ]
        exact ih p j (by omega)

theorem pyInsert_getD_self (doc : Document) (p : Nat) (a x : Line) (hp : p ≤ doc.length) :
    (pyInsert p a doc).getD p x = a := by
  induction doc generalizing p with
  | nil =>
    match p, hp with
    | 0, _ => rfl
  | cons l rest ih =>
    match p with
    | 0 => rw [pyInsert_zero, getD_cons_zero]
    | p + 1 =>
      rw [pyInsert_cons, getD_cons_succ]
      exact ih p (by simpa using hp)

/-! Splitting `take`/`drop` across an append, in the forms used below. -/

theorem drop_append_le {α : Type} (xs ys : List α) (n : Nat) (h : n ≤ xs.length) :
    (xs ++ ys).drop n = xs.drop n ++ ys := by
  induction xs generalizing n with
  | nil =>
    match n, h with
    | 0, _ => rfl
  | cons x xs ih =>
    match n with
    | 0 => rfl
    | n + 1 => simpa using ih n (by simpa using h)

theorem take_append_ge {α : Type} (xs ys : List α) (n : Nat) (h : xs.length ≤ n) :
    (xs ++ ys).take n = xs ++ ys.take (n - xs.length) := by
  induction xs generalizing n with
  | nil => simp
  | cons x xs ih =>
    match n, h with
    | n + 1, h => simpa using ih n (by simpa using h)

/-! Bounds satisfied by the scanners' successful results. -/

theorem scanFirstAux_bounds (pred : Line → Bool) :
    ∀ (L : List Line) (i r : Nat), scanFirstAux pred L i = some r →
      i ≤ r ∧ r < i + L.length := by
  intro L
  induction L with
  | nil => intro i r h; exact absurd h (by simp [scanFirstAux])
  | cons l rest ih =>
    intro i r h
    rw [scanFirstAux] at h
    split at h
    · cases h
      simp only [List.length_cons]
      omega
    · have := ih (i + 1) r h
      simp only [List.length_cons]
      omega

theorem findGroupAux_bounds (gq : Line) :
    ∀ (L : List Line) (i : Nat) (d : Int) (r : Nat), findGroupAux gq L i d = some r →
      i ≤ r ∧ r < i + L.length := by
  intro L
  induction L with
  | nil => intro i d r h; exact absurd h (by simp [findGroupAux])
  | cons l rest ih =>
    intro i d r h
    rw [findGroupAux] at h
    split at h
    · split at h
      · cases h
        simp only [List.length_cons]
        omega
      · have := ih (i + 1) (d + braceDelta l) r h
        simp only [List.length_cons]
        omega
    · exact absurd h (by simp)

theorem walkToCloseAux_bounds :
    ∀ (L : List Line) (m : Nat) (d : Int) (r : Nat), walkToCloseAux L m d = some r →
      m ≤ r ∧ r < m + L.length := by
  intro L
  induction L with
  | nil => intro m d r h; exact absurd h (by simp [walkToCloseAux])
  | cons l rest ih =>
    intro m d r h
    rw [walkToCloseAux] at h
    split at h
    · split at h
      · cases h
        simp only [List.length_cons]
        omega
      · have := ih (m + 1) (d + braceDelta l) r h
        simp only [List.length_cons]
        omega
    · exact absurd h (by simp)

theorem walkToCloseAux_pos (L : List Line) (m : Nat) (d : Int) (r : Nat)
    (h : walkToCloseAux L m d = some r) : 0 < d := by
  cases L with
  | nil => exact absurd h (by simp [walkToCloseAux])
  | cons l rest =>
    rw [walkToCloseAux] at h
    split at h
    · assumption
    · exact absurd h (by simp)

theorem findMapsAux_bounds :
    ∀ (L : List Line) (j : Nat) (d : Int) (ms me : Nat),
      findMapsAux L j d = .ok (ms, me) →
      j < ms ∧ ms ≤ me ∧ me < j + L.length := by
  intro L
  induction L with
  | nil => intro j d ms me h; exact absurd h (by simp [findMapsAux])
  | cons l rest ih =>
    intro j d ms me h
    rw [findMapsAux] at h
    split at h
    · split at h
      · split at h
        · exact absurd h (by simp)
        · split at h
          · exact absurd h (by simp)
          · rename_i hd k hk hp me' hw
            rw [Except.ok.injEq, Prod.mk.injEq] at h
            obtain ⟨hms, hme⟩ := h
            subst hms; subst hme
            have hkb := scanFirstAux_bounds hasBrace (l :: rest) j k hk
            have hwb := walkToCloseAux_bounds _ (k + 1) 1 me' hw
            have hlen : ((l :: rest).drop (k + 1 - j)).length
                = (l :: rest).length - (k + 1 - j) := by
              simp [List.length_drop]
            rw [hlen] at hwb
            simp only [List.length_cons] at hkb hwb ⊢
            omega
      · have := ih (j + 1) (d + braceDelta l) ms me h
        simp only [List.length_cons]
        omega
    · exact absurd h (by simp)

/-! Stability of the scanners under insertion of one line at position
`p = i + xs.length`, when the scan's successful result lies before `p`
(for the depth walk: when the insertion lies inside the walked span and
the inserted line is brace-free). -/

theorem scanFirstAux_insert (pred : Line → Bool) (a : Line) :
    ∀ (xs zs : List Line) (i r : Nat),
      scanFirstAux pred (xs ++ zs) i = some r → r < i + xs.length →
      scanFirstAux pred (xs ++ a :: zs) i = some r := by
  intro xs
  induction xs with
  | nil =>
    intro zs i r h hr
    have := scanFirstAux_bounds pred zs i r (by simpa using h)
    simp only [List.length_nil] at hr
    omega
  | cons x xs ih =>
    intro zs i r h hr
    rw [List.cons_append] at h
    rw [List.cons_append]
    rw [scanFirstAux] at h
    rw [scanFirstAux]
    by_cases hp : pred x
    · rw [if_pos hp] at h
      rw [if_pos hp]
      exact h
    · rw [if_neg hp] at h
      rw [if_neg hp]
      refine ih zs (i + 1) r h ?_
      simp only [List.length_cons] at hr
      omega

theorem findGroupAux_insert (gq : Line) (a : Line) :
    ∀ (xs zs : List Line) (i : Nat) (d : Int) (r : Nat),
      findGroupAux gq (xs ++ zs) i d = some r → r < i + xs.length →
      findGroupAux gq (xs ++ a :: zs) i d = some r := by
  intro xs
  induction xs with
  | nil =>
    intro zs i d r h hr
    have := findGroupAux_bounds gq zs i d r (by simpa using h)
    simp only [List.length_nil] at hr
    omega
  | cons x xs ih =>
    intro zs i d r h hr
    rw [List.cons_append] at h
    rw [List.cons_append]
    rw [findGroupAux] at h
    rw [findGroupAux]
    by_cases hd : d > 0
    · rw [if_pos hd] at h
      rw [if_pos hd]
      by_cases hp : gq.isPrefixOf (strip x)
      · rw [if_pos hp] at h
        rw [if_pos hp]
        exact h
      · rw [if_neg hp] at h
        rw [if_neg hp]
        refine ih zs (i + 1) (d + braceDelta x) r h ?_
        simp only [List.length_cons] at hr
        omega
    · rw [if_neg hd] at h
      exact absurd h (by simp)

theorem walkToCloseAux_shift :
    ∀ (L : List Line) (m : Nat) (d : Int) (r : Nat),
      walkToCloseAux L m d = some r → walkToCloseAux L (m + 1) d = some (r + 1) := by
  intro L
  induction L with
  | nil => intro m d r h; exact absurd h (by simp [walkToCloseAux])
  | cons l rest ih =>
    intro m d r h
    rw [walkToCloseAux] at h
    rw [walkToCloseAux]
    by_cases hd : d > 0
    · rw [if_pos hd] at h
      rw [if_pos hd]
      by_cases hz : d + braceDelta l = 0
      · rw [if_pos hz] at h
        rw [if_pos hz]
        cases h
        rfl
      · rw [if_neg hz] at h
        rw [if_neg hz]
        exact ih (m + 1) (d + braceDelta l) r h
    · rw [if_neg hd] at h
      exact absurd h (by simp)

theorem walkToCloseAux_insert (a : Line) (ha : braceDelta a = 0) :
    ∀ (xs zs : List Line) (m : Nat) (d : Int) (r : Nat),
      walkToCloseAux (xs ++ zs) m d = some r → m + xs.length ≤ r →
      walkToCloseAux (xs ++ a :: zs) m d = some (r + 1) := by
  intro xs
  induction xs with
  | nil =>
    intro zs m d r h hr
    simp only [List.nil_append] at h
    simp only [List.nil_append]
    have hd := walkToCloseAux_pos zs m d r h
    rw [walkToCloseAux, if_pos hd, ha, add_zero]
    rw [if_neg (by omega)]
    exact walkToCloseAux_shift zs m d r h
  | cons x xs ih =>
    intro zs m d r h hr
    rw [List.cons_append] at h
    rw [List.cons_append]
    rw [walkToCloseAux] at h
    rw [walkToCloseAux]
    by_cases hd : d > 0
    · rw [if_pos hd] at h
      rw [if_pos hd]
      by_cases hz : d + braceDelta x = 0
      · rw [if_pos hz] at h
        cases h
        exfalso
        simp only [List.length_cons] at hr
        omega
      · rw [if_neg hz] at h
        rw [if_neg hz]
        refine ih zs (m + 1) (d + braceDelta x) r h ?_
        simp only [List.length_cons] at hr
        omega
    · rw [if_neg hd] at h
      exact absurd h (by simp)

theorem findMapsAux_insert (a : Line) (ha : braceDelta a = 0) :
    ∀ (xs zs : List Line) (j : Nat) (d : Int) (ms me : Nat),
      findMapsAux (xs ++ zs) j d = .ok (ms, me) →
      ms ≤ j + xs.length → j + xs.length ≤ me →
      findMapsAux (xs ++ a :: zs) j d = .ok (ms, me + 1) := by
  intro xs
  induction xs with
  | nil =>
    intro zs j d ms me h hms hme
    have hb := findMapsAux_bounds zs j d ms me (by simpa using h)
    simp only [List.length_nil, Nat.add_zero] at hms
    exact absurd hms (by omega)
  | cons x xs ih =>
    intro zs j d ms me h hms hme
    rw [List.cons_append] at h
    rw [List.cons_append]
    rw [findMapsAux] at h
    rw [findMapsAux]
    by_cases hd : d > 0
    · rw [if_pos hd] at h
      rw [if_pos hd]
      by_cases hp : mapsTok.isPrefixOf (strip x)
      · rw [if_pos hp] at h
        rw [if_pos hp]
        split at h
        · exact absurd h (by simp)
        · split at h
          · exact absurd h (by simp)
          · rename_i k hk hX me' hw
            rw [Except.ok.injEq, Prod.mk.injEq] at h
            obtain ⟨hms', hme'⟩ := h
            subst hms'
            subst hme'
            have hkb := scanFirstAux_bounds hasBrace (x :: (xs ++ zs)) j k hk
            simp only [List.length_cons] at hms hme hkb
            have hk2 : scanFirstAux hasBrace ((x :: xs) ++ zs) j = some k := by
              rw [List.cons_append]; exact hk
            have hk' := scanFirstAux_insert hasBrace a (x :: xs) zs j k hk2
              (by simp only [List.length_cons]; omega)
            rw [List.cons_append] at hk'
            have hq : k + 1 - j = (k - j) + 1 := by omega
            rw [hq, List.drop_succ_cons] at hw
            have hdrop : (xs ++ zs).drop (k - j) = xs.drop (k - j) ++ zs :=
              drop_append_le xs zs (k - j) (by omega)
            rw [hdrop] at hw
            have hw' := walkToCloseAux_insert a ha (xs.drop (k - j)) zs (k + 1) 1 me' hw
              (by simp only [List.length_drop]; omega)
            have hw2 : walkToCloseAux ((x :: (xs ++ a :: zs)).drop (k + 1 - j)) (k + 1) 1
                = some (me' + 1) := by
              rw [hq, List.drop_succ_cons,
                drop_append_le xs (a :: zs) (k - j) (by omega)]
              exact hw'
            simp only [hk', hw2]
      · rw [if_neg hp] at h
        rw [if_neg hp]
        refine ih zs (j + 1) (d + braceDelta x) ms me h ?_ ?_ <;>
          simp only [List.length_cons] at hms hme <;> omega
    · rw [if_neg hd] at h
      exact absurd h (by simp)

/-! Lifting the suffix-level lemmas to absolute-index wrappers. -/

theorem drop_eq_take_drop (doc : Document) (p i : Nat) (hip : i ≤ p) (hp : p ≤ doc.length) :
    doc.drop i = (doc.take p).drop i ++ doc.drop p := by
  conv_lhs => rw [← List.take_append_drop p doc]
  exact drop_append_le _ _ i (by simp only [List.length_take]; omega)

theorem drop_pyInsert (doc : Document) (p i : Nat) (a : Line) (hip : i ≤ p)
    (hp : p ≤ doc.length) :
    (pyInsert p a doc).drop i = (doc.take p).drop i ++ a :: doc.drop p :=
  drop_append_le _ _ i (by simp only [List.length_take]; omega)

theorem length_take_drop (doc : Document) (p i : Nat) (hip : i ≤ p) (hp : p ≤ doc.length) :
    ((doc.take p).drop i).length = p - i := by
  simp only [List.length_drop, List.length_take]
  omega

theorem scanFirst_bounds (pred : Line → Bool) (doc : Document) (i r : Nat)
    (h : scanFirst pred doc i = some r) : i ≤ r ∧ r < doc.length := by
  unfold scanFirst at h
  have hb := scanFirstAux_bounds pred (doc.drop i) i r h
  by_cases hi : i ≤ doc.length
  · simp only [List.length_drop] at hb
    omega
  · rw [List.drop_eq_nil_of_le (by omega)] at h
    exact absurd h (by simp [scanFirstAux])

theorem findGroupFrom_bounds (doc : Document) (gq : Line) (i : Nat) (d : Int) (r : Nat)
    (h : findGroupFrom doc gq i d = some r) : i ≤ r ∧ r < doc.length := by
  unfold findGroupFrom at h
  have hb := findGroupAux_bounds gq (doc.drop i) i d r h
  by_cases hi : i ≤ doc.length
  · simp only [List.length_drop] at hb
    omega
  · rw [List.drop_eq_nil_of_le (by omega)] at h
    exact absurd h (by simp [findGroupAux])

theorem findMapsIn_bounds (doc : Document) (j : Nat) (d : Int) (ms me : Nat)
    (h : findMapsIn doc j d = .ok (ms, me)) : j < ms ∧ ms ≤ me ∧ me < doc.length := by
  unfold findMapsIn at h
  have hb := findMapsAux_bounds (doc.drop j) j d ms me h
  by_cases hj : j ≤ doc.length
  · simp only [List.length_drop] at hb
    omega
  · rw [List.drop_eq_nil_of_le (by omega)] at h
    exact absurd h (by simp [findMapsAux])

theorem scanFirst_insert (pred : Line → Bool) (doc : Document) (p i r : Nat) (a : Line)
    (hip : i ≤ p) (hp : p ≤ doc.length) (hr : r < p)
    (h : scanFirst pred doc i = some r) :
    scanFirst pred (pyInsert p a doc) i = some r := by
  unfold scanFirst at h
  unfold scanFirst
  rw [drop_eq_take_drop doc p i hip hp] at h
  rw [drop_pyInsert doc p i a hip hp]
  exact scanFirstAux_insert pred a _ _ i r h
    (by rw [length_take_drop doc p i hip hp]; omega)

theorem findGroupFrom_insert (doc : Document) (gq : Line) (p i : Nat) (d : Int) (r : Nat)
    (a : Line) (hip : i ≤ p) (hp : p ≤ doc.length) (hr : r < p)
    (h : findGroupFrom doc gq i d = some r) :
    findGroupFrom (pyInsert p a doc) gq i d = some r := by
  unfold findGroupFrom at h
  unfold findGroupFrom
  rw [drop_eq_take_drop doc p i hip hp] at h
  rw [drop_pyInsert doc p i a hip hp]
  exact findGroupAux_insert gq a _ _ i d r h
    (by rw [length_take_drop doc p i hip hp]; omega)

theorem findMapsIn_insert (doc : Document) (p j : Nat) (d : Int) (ms me : Nat) (a : Line)
    (ha : braceDelta a = 0) (hjp : j ≤ p) (hp : p ≤ doc.length)
    (hms : ms ≤ p) (hme : p ≤ me) (h : findMapsIn doc j d = .ok (ms, me)) :
    findMapsIn (pyInsert p a doc) j d = .ok (ms, me + 1) := by
  unfold findMapsIn at h
  unfold findMapsIn
  rw [drop_eq_take_drop doc p j hjp hp] at h
  rw [drop_pyInsert doc p j a hjp hp]
  refine findMapsAux_insert a ha _ _ j d ms me h ?_ ?_ <;>
    rw [length_take_drop doc p j hjp hp] <;> omega

/-- Inversion of a successful `find_group_and_maps_block`: the five scans it
chains all succeeded, and the returned indent is the inferred one. -/
theorem find_ok_inv (doc : Document) (g : Line) (gs ms me : Nat) (ind : Line)
    (h : find_group_and_maps_block doc g = .ok (gs, ms, me, ind)) :
    ∃ i0 ib jb,
      scanFirst isMapgroupsLine doc 0 = some i0 ∧
      scanFirst hasBrace doc (i0 + 1) = some ib ∧
      findGroupFrom doc (quoted g) (ib + 1) 1 = some gs ∧
      scanFirst hasBrace doc gs = some jb ∧
      findMapsIn doc (jb + 1) 1 = .ok (ms, me) ∧
      ind = infer_maps_indent doc ms me := by
  unfold find_group_and_maps_block at h
  cases hA : scanFirst isMapgroupsLine doc 0 with
  | none => simp [hA] at h
  | some i0 =>
    simp only [hA] at h
    cases hB : scanFirst hasBrace doc (i0 + 1) with
    | none => simp [hB] at h
    | some ib =>
      simp only [hB] at h
      cases hC : findGroupFrom doc (quoted g) (ib + 1) 1 with
      | none => simp [hC] at h
      | some gs' =>
        simp only [hC] at h
        cases hD : scanFirst hasBrace doc gs' with
        | none => simp [hD] at h
        | some jb =>
          simp only [hD] at h
          cases hE : findMapsIn doc (jb + 1) 1 with
          | error e => simp [hE] at h
          | ok pr =>
            obtain ⟨ms', me'⟩ := pr
            simp only [hE] at h
            rw [Except.ok.injEq, Prod.mk.injEq, Prod.mk.injEq, Prod.mk.injEq] at h
            obtain ⟨e1, e2, e3, e4⟩ := h
            subst e1
            subst e2
            subst e3
            subst e4
            exact ⟨i0, ib, jb, rfl, hB, hC, hD, hE, rfl⟩

/-- Bounds delivered by a successful locate: the group header precedes the
block content, which precedes the closing brace, inside the document. -/
theorem find_bounds (doc : Document) (g : Line) (gs ms me : Nat) (ind : Line)
    (h : find_group_and_maps_block doc g = .ok (gs, ms, me, ind)) :
    gs < ms ∧ ms ≤ me ∧ me < doc.length := by
  obtain ⟨i0, ib, jb, h1, h2, h3, h4, h5, h6⟩ := find_ok_inv doc g gs ms me ind h
  have b4 := scanFirst_bounds hasBrace doc gs jb h4
  have b5 := findMapsIn_bounds doc (jb + 1) 1 ms me h5
  omega

/-- Inserting one brace-free line anywhere inside a located maps block leaves
the located span unchanged except that the closing brace moves down one
line. -/
theorem find_insert (doc : Document) (g : Line) (gs ms me : Nat) (ind : Line)
    (p : Nat) (a : Line)
    (h : find_group_and_maps_block doc g = .ok (gs, ms, me, ind))
    (ha : braceDelta a = 0) (h1 : ms ≤ p) (h2 : p ≤ me) :
    find_group_and_maps_block (pyInsert p a doc) g =
      .ok (gs, ms, me + 1, infer_maps_indent (pyInsert p a doc) ms (me + 1)) := by
  obtain ⟨i0, ib, jb, hA, hB, hC, hD, hE, hF⟩ := find_ok_inv doc g gs ms me ind h
  have bA := scanFirst_bounds isMapgroupsLine doc 0 i0 hA
  have bB := scanFirst_bounds hasBrace doc (i0 + 1) ib hB
  have bC := findGroupFrom_bounds doc (quoted g) (ib + 1) 1 gs hC
  have bD := scanFirst_bounds hasBrace doc gs jb hD
  have bE := findMapsIn_bounds doc (jb + 1) 1 ms me hE
  have hp : p ≤ doc.length := by omega
  have hA' := scanFirst_insert isMapgroupsLine doc p 0 i0 a (by omega) hp (by omega) hA
  have hB' := scanFirst_insert hasBrace doc p (i0 + 1) ib a (by omega) hp (by omega) hB
  have hC' := findGroupFrom_insert doc (quoted g) p (ib + 1) 1 gs a (by omega) hp
    (by omega) hC
  have hD' := scanFirst_insert hasBrace doc p gs jb a (by omega) hp (by omega) hD
  have hE' := findMapsIn_insert doc p (jb + 1) 1 ms me a ha (by omega) hp h1 h2 hE
  unfold find_group_and_maps_block
  simp only [hA', hB', hC', hD', hE']

/-! Shape of the inserted entry line: its leading whitespace is whitespace,
its stripped form starts with a quote, and its first quoted substring is the
inserted key. -/

theorem takeWhile_mem_space : ∀ (l : Line) (c : Char), c ∈ l.takeWhile isPySpace →
    isPySpace c = true := by
  intro l
  induction l with
  | nil => intro c hc; simp at hc
  | cons x xs ih =>
    intro c hc
    rw [List.takeWhile_cons] at hc
    by_cases hx : isPySpace x
    · rw [if_pos hx] at hc
      rcases List.mem_cons.mp hc with h | h
      · rwa [h]
      · exact ih c h
    · rw [if_neg hx] at hc
      simp at hc

theorem lstrip_length_le : ∀ (l : Line), (lstrip l).length ≤ l.length := by
  intro l
  induction l with
  | nil => exact Nat.le_refl 0
  | cons x xs ih =>
    unfold lstrip at ih ⊢
    rw [List.dropWhile_cons]
    by_cases hx : isPySpace x
    · rw [if_pos hx]
      simp only [List.length_cons]
      omega
    · rw [if_neg hx]

theorem leadingWs_eq_takeWhile : ∀ (l : Line), leadingWs l = l.takeWhile isPySpace := by
  intro l
  induction l with
  | nil => rfl
  | cons x xs ih =>
    by_cases hx : isPySpace x
    · rw [List.takeWhile_cons, if_pos hx]
      unfold leadingWs lstrip
      rw [List.dropWhile_cons, if_pos hx]
      have hle := lstrip_length_le xs
      unfold lstrip at hle
      have harith : (x :: xs).length - (xs.dropWhile isPySpace).length
          = (xs.length - (xs.dropWhile isPySpace).length) + 1 := by
        simp only [List.length_cons]
        omega
      rw [harith, List.take_succ_cons]
      rw [show xs.take (xs.length - (xs.dropWhile isPySpace).length) = leadingWs xs from rfl]
      rw [ih]
    · rw [List.takeWhile_cons, if_neg hx]
      unfold leadingWs lstrip
      rw [List.dropWhile_cons, if_neg hx]
      simp

theorem inferAux_space : ∀ (L : List Line) (c : Char), c ∈ inferAux L →
    isPySpace c = true := by
  intro L
  induction L with
  | nil =>
    intro c hc
    simp [inferAux, tabs4] at hc
    rw [hc]
    decide
  | cons l rest ih =>
    intro c hc
    rw [inferAux] at hc
    by_cases h1 : inferCond1 l
    · rw [if_pos h1, leadingWs_eq_takeWhile] at hc
      exact takeWhile_mem_space l c hc
    · rw [if_neg h1] at hc
      by_cases h2 : inferCond2 l
      · rw [if_pos h2, leadingWs_eq_takeWhile] at hc
        exact takeWhile_mem_space l c hc
      · rw [if_neg h2] at hc
        exact ih c hc

theorem infer_maps_indent_space (doc : Document) (s e : Nat) (c : Char)
    (hc : c ∈ infer_maps_indent doc s e) : isPySpace c = true :=
  inferAux_space _ c hc

theorem count_entryLine_eq_zero (c : Char) (ind key : Line) (hc1 : c ∉ ind) (hc2 : c ∉ key)
    (hq : c ≠ '"') (ht : c ≠ '\t') (hn : c ≠ '\n') :
    (entryLine ind key).count c = 0 := by
  rw [List.count_eq_zero]
  intro hmem
  simp only [entryLine, List.mem_append, List.mem_cons, List.not_mem_nil, or_false] at hmem
  rcases hmem with h | h | h | h | h | h | h | h | h
  · exact hc1 h
  · exact hq h
  · exact hc2 h
  · exact hq h
  · exact ht h
  · exact ht h
  · exact hq h
  · exact hq h
  · exact hn h

theorem braceDelta_entryLine (ind key : Line) (h1 : lbrace ∉ ind) (h2 : rbrace ∉ ind)
    (h3 : lbrace ∉ key) (h4 : rbrace ∉ key) : braceDelta (entryLine ind key) = 0 := by
  unfold braceDelta
  rw [count_entryLine_eq_zero lbrace ind key h1 h3 (by decide) (by decide) (by decide),
    count_entryLine_eq_zero rbrace ind key h2 h4 (by decide) (by decide) (by decide)]
  rfl

theorem dropWhile_append_all (xs ys : List Char) (h : ∀ c ∈ xs, isPySpace c = true) :
    (xs ++ ys).dropWhile isPySpace = ys.dropWhile isPySpace := by
  induction xs with
  | nil => rfl
  | cons x t ih =>
    rw [List.cons_append, List.dropWhile_cons, if_pos (h x (by simp))]
    exact ih (fun c hc => h c (by simp [hc]))

theorem lstrip_entryLine (ind key : Line) (h : ∀ c ∈ ind, isPySpace c = true) :
    lstrip (entryLine ind key) = '"' :: (key ++ ['"', '\t', '\t', '"', '"', '\n']) := by
  unfold lstrip entryLine
  rw [dropWhile_append_all ind _ h, List.dropWhile_cons, if_neg (by decide)]

theorem rstrip_quote_tail (u : Line) :
    rstrip ('"' :: (u ++ ['"', '\t', '\t', '"', '"', '\n']))
      = '"' :: (u ++ ['"', '\t', '\t', '"', '"']) := by
  unfold rstrip
  have hrev : ('"' :: (u ++ ['"', '\t', '\t', '"', '"', '\n'])).reverse
      = '\n' :: '"' :: '"' :: '\t' :: '\t' :: '"' :: (u.reverse ++ ['"']) := by
    simp [List.reverse_cons, List.reverse_append]
  rw [hrev, List.dropWhile_cons, if_pos (by decide), List.dropWhile_cons, if_neg (by decide)]
  simp [List.reverse_cons, List.reverse_append]

theorem strip_entryLine (ind key : Line) (h : ∀ c ∈ ind, isPySpace c = true) :
    strip (entryLine ind key) = '"' :: (key ++ ['"', '\t', '\t', '"', '"']) := by
  unfold strip
  rw [lstrip_entryLine ind key h, rstrip_quote_tail]

theorem pySplit_no_sep : ∀ (u : Line) (sep : Char) (v : Line), sep ∉ u →
    pySplit sep (u ++ sep :: v) = u :: pySplit sep v := by
  intro u
  induction u with
  | nil =>
    intro sep v h
    rw [List.nil_append, pySplit, if_pos rfl]
  | cons c cs ih =>
    intro sep v h
    rw [List.cons_append, pySplit,
      if_neg (fun hc => h (by rw [hc]; exact List.mem_cons_self _ _)),
      ih sep v (fun hc => h (List.mem_cons_of_mem c hc))]

theorem keyOf_strip_entry (key : Line) (hq : '"' ∉ key) :
    keyOf ('"' :: (key ++ ['"', '\t', '\t', '"', '"'])) = key := by
  unfold keyOf
  rw [pySplit, if_pos rfl,
    pySplit_no_sep key '"' ['\t', '\t', '"', '"'] hq]
  rfl

theorem isEntryLine_strip_entry (key : Line) :
    isEntryLine ('"' :: (key ++ ['"', '\t', '\t', '"', '"'])) = true := by
  unfold isEntryLine
  rw [Bool.and_eq_true]
  constructor
  · rw [List.isPrefixOf]
    simp
  · simp [List.contains_cons]

theorem currentMapsAux_mem (a : Line) (h : isEntryLine (strip a) = true) :
    ∀ (xs ys : List Line), keyOf (strip a) ∈ currentMapsAux (xs ++ a :: ys) := by
  intro xs
  induction xs with
  | nil =>
    intro ys
    rw [List.nil_append, currentMapsAux, if_pos h]
    exact List.mem_cons_self _ _
  | cons x xs ih =>
    intro ys
    rw [List.cons_append, currentMapsAux]
    by_cases hx : isEntryLine (strip x)
    · rw [if_pos hx]
      exact List.mem_cons_of_mem _ (ih ys)
    · rw [if_neg hx]
      exact ih ys

theorem slice_pyInsert (doc : Document) (p ms me : Nat) (a : Line)
    (h1 : ms ≤ p) (h2 : p ≤ me) (h3 : me < doc.length) :
    ((pyInsert p a doc).drop ms).take (me + 1 - ms)
      = (doc.take p).drop ms ++ a :: (doc.drop p).take (me - p) := by
  rw [drop_pyInsert doc p ms a h1 (by omega)]
  rw [take_append_ge _ _ _ (by rw [length_take_drop doc p ms h1 (by omega)]; omega)]
  have hn : me + 1 - ms - ((doc.take p).drop ms).length = (me - p) + 1 := by
    rw [length_take_drop doc p ms h1 (by omega)]
    omega
  rw [hn, List.take_succ_cons]

theorem mem_current_maps_insert (doc : Document) (p ms me : Nat) (a : Line)
    (h1 : ms ≤ p) (h2 : p ≤ me) (h3 : me < doc.length)
    (ha : isEntryLine (strip a) = true) :
    keyOf (strip a) ∈ current_maps_in_block (pyInsert p a doc) ms (me + 1) := by
  unfold current_maps_in_block
  rw [slice_pyInsert doc p ms me a h1 h2 h3]
  exact currentMapsAux_mem a ha _ _

/-- Claim C2. For a well-formed document and identical arguments whose entry
key contains no brace and no quote character, a second run of the
Document-level add-map operation after a first run reports the key as
already present, performs no insertion, and returns the first run's document
unchanged. -/
theorem add_map_doc_idempotent (doc doc1 : Document) (g n : Line) (wid : Option Line)
    (pos : Line) (ins : Bool)
    (hb1 : lbrace ∉ format_map_key n wid) (hb2 : rbrace ∉ format_map_key n wid)
    (hb3 : '"' ∉ format_map_key n wid)
    (h : add_map_doc doc g n wid pos = .ok (doc1, ins)) :
    add_map_doc doc1 g n wid pos = .ok (doc1, false) := by
  unfold add_map_doc at h
  cases hf : find_group_and_maps_block doc g with
  | error e => simp [hf] at h
  | ok q =>
    obtain ⟨gs, ms, me, ind⟩ := q
    simp only [hf] at h
    by_cases hmem : format_map_key n wid ∈ current_maps_in_block doc ms me
    · rw [if_pos hmem] at h
      rw [Except.ok.injEq, Prod.mk.injEq] at h
      obtain ⟨hd1, hins⟩ := h
      subst hd1
      unfold add_map_doc
      simp only [hf]
      rw [if_pos hmem]
    · rw [if_neg hmem] at h
      rw [Except.ok.injEq, Prod.mk.injEq] at h
      obtain ⟨hd1, hins⟩ := h
      have hbounds := find_bounds doc g gs ms me ind hf
      obtain ⟨i0, ib, jb, hA, hB, hC, hD, hE, hind⟩ := find_ok_inv doc g gs ms me ind hf
      have hsp : ∀ c ∈ ind, isPySpace c = true := by
        rw [hind]
        intro c hc
        exact infer_maps_indent_space doc ms me c hc
      have hbd : braceDelta (entryLine ind (format_map_key n wid)) = 0 :=
        braceDelta_entryLine ind (format_map_key n wid)
          (fun hm => absurd (hsp lbrace hm) (by decide))
          (fun hm => absurd (hsp rbrace hm) (by decide))
          hb1 hb2
      have hins_eq : insert_map doc ms me ind (format_map_key n wid) pos
          = pyInsert (if pos = ("start").data then ms else me)
              (entryLine ind (format_map_key n wid)) doc := by
        unfold insert_map
        split <;> rfl
      have hmsp : ms ≤ (if pos = ("start").data then ms else me) := by
        split <;> omega
      have hpme : (if pos = ("start").data then ms else me) ≤ me := by
        split <;> omega
      have hfind1 := find_insert doc g gs ms me ind
        (if pos = ("start").data then ms else me)
        (entryLine ind (format_map_key n wid)) hf hbd hmsp hpme
      have hstrip := strip_entryLine ind (format_map_key n wid) hsp
      have hkeyof : keyOf (strip (entryLine ind (format_map_key n wid)))
          = format_map_key n wid := by
        rw [hstrip]
        exact keyOf_strip_entry (format_map_key n wid) hb3
      have hentry : isEntryLine (strip (entryLine ind (format_map_key n wid))) = true := by
        rw [hstrip]
        exact isEntryLine_strip_entry (format_map_key n wid)
      have hmem1 : format_map_key n wid ∈ current_maps_in_block
          (pyInsert (if pos = ("start").data then ms else me)
            (entryLine ind (format_map_key n wid)) doc) ms (me + 1) := by
        have hm := mem_current_maps_insert doc _ ms me _ hmsp hpme hbounds.2.2 hentry
        rwa [hkeyof] at hm
      subst hd1
      unfold add_map_doc
      rw [hins_eq]
      simp only [hfind1]
      rw [if_pos hmem1]

/-- Witness for claim C2: on the concrete document `exdocA`, adding `de_b`
once inserts it, and the second identical run is the identity. -/
theorem add_map_doc_idempotent_witness :
    lbrace ∉ format_map_key ("de_b").data none ∧
    rbrace ∉ format_map_key ("de_b").data none ∧
    '"' ∉ format_map_key ("de_b").data none ∧
    add_map_doc exdocA ("mg_x").data ("de_b").data none ("end").data = .ok (exdocA1, true) ∧
    add_map_doc exdocA1 ("mg_x").data ("de_b").data none ("end").data = .ok (exdocA1, false) := by
  have h1 : add_map_doc exdocA ("mg_x").data ("de_b").data none ("end").data
      = .ok (exdocA1, true) := by rfl
  exact ⟨by decide, by decide, by decide, h1,
    add_map_doc_idempotent exdocA exdocA1 ("mg_x").data ("de_b").data none ("end").data true
      (by decide) (by decide) (by decide) h1⟩

/-- Per line, the source's two cascaded conditions select exactly the lines
that contain a tab or start (trimmed) with a quote. -/
theorem cond_collapse (l : Line) : (inferCond1 l || inferCond2 l) = amendedCond l := by
  unfold inferCond1 inferCond2 amendedCond
  cases hq : (['"'].isPrefixOf (strip l)) <;>
    cases hqq : ((strip l).contains '"') <;>
      cases ht : (l.contains '\t') <;> rfl

theorem inferAux_eq_amended : ∀ (L : List Line), inferAux L = amendedIndentAux L := by
  intro L
  induction L with
  | nil => rfl
  | cons l rest ih =>
    cases h1 : inferCond1 l with
    | true =>
      have ha : amendedCond l = true := by rw [← cond_collapse, h1]; rfl
      rw [inferAux, amendedIndentAux, if_pos h1, if_pos ha]
    | false =>
      cases h2 : inferCond2 l with
      | true =>
        have ha : amendedCond l = true := by rw [← cond_collapse, h1, h2]; rfl
        rw [inferAux, amendedIndentAux, if_neg (by rw [h1]; exact Bool.false_ne_true),
          if_pos h2, if_pos ha]
      | false =>
        have ha : amendedCond l = false := by rw [← cond_collapse, h1, h2]; rfl
        rw [inferAux, amendedIndentAux, if_neg (by rw [h1]; exact Bool.false_ne_true),
          if_neg (by rw [h2]; exact Bool.false_ne_true),
          if_neg (by rw [ha]; exact Bool.false_ne_true)]
        exact ih

/-- Claim C1, amended. The inferred indentation token equals the leading
whitespace of the first line strictly between `maps_content_start` and
`maps_content_end` that contains a tab character or whose trimmed content
starts with a double quote; if no such line exists it is four tabs. -/
theorem infer_maps_indent_amended (doc : Document) (s e : Nat) :
    infer_maps_indent doc s e = amended_infer_indent doc s e :=
  inferAux_eq_amended _

/-- Counterexample to claim C1 as stated: in `exdocB` the located maps block
is lines 6-7; its first line is a tab-indented comment, so the code returns
three tabs, while the first quote-starting line has three spaces of leading
whitespace. -/
theorem infer_claim_counterexample :
    find_group_and_maps_block exdocB ("mg_x").data = .ok (2, 6, 8, ("\t\t\t").data) ∧
    claim_infer_indent exdocB 6 8 = ("   ").data ∧
    infer_maps_indent exdocB 6 8 ≠ claim_infer_indent exdocB 6 8 :=
  ⟨rfl, rfl, by decide⟩

/-- Claim C3. Inserting into a located block leaves every line before
`maps_content_start` at its index with identical content, shifts every line
after `maps_content_end` down by exactly one index with identical content
(the closing-brace line included), and grows the document by one line. -/
theorem insert_map_frame (doc : Document) (g : Line) (gs ms me : Nat) (ind : Line)
    (key pos : Line)
    (h : find_group_and_maps_block doc g = .ok (gs, ms, me, ind)) :
    (insert_map doc ms me ind key pos).length = doc.length + 1 ∧
    (∀ i, i < ms → (insert_map doc ms me ind key pos).getD i [] = doc.getD i []) ∧
    (∀ i, me < i → i < doc.length →
      (insert_map doc ms me ind key pos).getD (i + 1) [] = doc.getD i []) ∧
    (insert_map doc ms me ind key pos).getD (me + 1) [] = doc.getD me [] := by
  have hb := find_bounds doc g gs ms me ind h
  unfold insert_map
  split
  · refine ⟨pyInsert_length _ _ _, ?_, ?_, ?_⟩
    · intro i hi
      exact pyInsert_getD_lt doc ms i _ _ hi (by omega)
    · intro i hi1 hi2
      exact pyInsert_getD_ge doc ms i _ _ (by omega)
    · exact pyInsert_getD_ge doc ms me _ _ (by omega)
  · refine ⟨pyInsert_length _ _ _, ?_, ?_, ?_⟩
    · intro i hi
      exact pyInsert_getD_lt doc me i _ _ (by omega) (by omega)
    · intro i hi1 hi2
      exact pyInsert_getD_ge doc me i _ _ (by omega)
    · exact pyInsert_getD_ge doc me me _ _ (by omega)

/-- Witness for claim C3 at `exdocA`: the located block is (2, 6, 7), and
after insertion the closing-brace line reappears unchanged at index 8, line
0 is untouched, and the document grew by one line. -/
theorem insert_map_frame_witness :
    find_group_and_maps_block exdocA ("mg_x").data = .ok (2, 6, 7, ("\t\t\t").data) ∧
    (insert_map exdocA 6 7 ("\t\t\t").data ("de_b").data ("end").data).length
      = exdocA.length + 1 ∧
    (insert_map exdocA 6 7 ("\t\t\t").data ("de_b").data ("end").data).getD 0 []
      = exdocA.getD 0 [] ∧
    (insert_map exdocA 6 7 ("\t\t\t").data ("de_b").data ("end").data).getD 8 []
      = exdocA.getD 7 [] := by
  have h : find_group_and_maps_block exdocA ("mg_x").data
      = .ok (2, 6, 7, ("\t\t\t").data) := by rfl
  have hall := insert_map_frame exdocA ("mg_x").data 2 6 7 (("\t\t\t").data)
    (("de_b").data) (("end").data) h
  exact ⟨h, hall.1, hall.2.1 0 (by omega), hall.2.2.2⟩

/-- Claim C4. When the key is not yet present, position `start` yields the
document with the new entry line at index `maps_content_start`, position
`end` yields it at the line immediately before the closing brace, and in
both cases the result is the original lines split around the new entry, so
all pre-existing lines keep their relative order. -/
theorem insert_positions (doc : Document) (g : Line) (gs ms me : Nat) (ind : Line)
    (n : Line) (wid : Option Line)
    (h : find_group_and_maps_block doc g = .ok (gs, ms, me, ind))
    (hmem : format_map_key n wid ∉ current_maps_in_block doc ms me) :
    add_map_doc doc g n wid ("start").data
      = .ok (doc.take ms ++ entryLine ind (format_map_key n wid) :: doc.drop ms, true) ∧
    add_map_doc doc g n wid ("end").data
      = .ok (doc.take me ++ entryLine ind (format_map_key n wid) :: doc.drop me, true) ∧
    (doc.take ms ++ entryLine ind (format_map_key n wid) :: doc.drop ms).getD ms []
      = entryLine ind (format_map_key n wid) ∧
    (doc.take me ++ entryLine ind (format_map_key n wid) :: doc.drop me).getD me []
      = entryLine ind (format_map_key n wid) ∧
    (doc.take me ++ entryLine ind (format_map_key n wid) :: doc.drop me).getD (me + 1) []
      = doc.getD me [] := by
  have hb := find_bounds doc g gs ms me ind h
  refine ⟨?_, ?_, ?_, ?_, ?_⟩
  · unfold add_map_doc
    simp only [h]
    rw [if_neg hmem]
    unfold insert_map
    rw [if_pos rfl]
    rfl
  · unfold add_map_doc
    simp only [h]
    rw [if_neg hmem]
    unfold insert_map
    rw [if_neg (by decide)]
    rfl
  · exact pyInsert_getD_self doc ms _ _ (by omega)
  · exact pyInsert_getD_self doc me _ _ (by omega)
  · exact pyInsert_getD_ge doc me me _ _ (by omega)

/-- Witness for claim C4 at `exdocA`: inserting `de_b` at `start` puts the
entry at index 6, at `end` puts it at index 7, immediately before the
closing brace. -/
theorem insert_positions_witness :
    find_group_and_maps_block exdocA ("mg_x").data = .ok (2, 6, 7, ("\t\t\t").data) ∧
    (("de_b") : String).data ∉ current_maps_in_block exdocA 6 7 ∧
    add_map_doc exdocA ("mg_x").data ("de_b").data none ("start").data
      = .ok (exdocA.take 6 ++ entryLine (("\t\t\t").data) (("de_b").data) :: exdocA.drop 6,
        true) ∧
    add_map_doc exdocA ("mg_x").data ("de_b").data none ("end").data
      = .ok (exdocA.take 7 ++ entryLine (("\t\t\t").data) (("de_b").data) :: exdocA.drop 7,
        true) := by
  have h : find_group_and_maps_block exdocA ("mg_x").data
      = .ok (2, 6, 7, ("\t\t\t").data) := by rfl
  have hmem : (("de_b") : String).data ∉ current_maps_in_block exdocA 6 7 := by decide
  have hall := insert_positions exdocA ("mg_x").data 2 6 7 (("\t\t\t").data)
    (("de_b").data) none h hmem
  exact ⟨h, hmem, hall.1, hall.2.1⟩

/-- Claim C5. Duplicate detection is key-exact: a workshop-qualified key is
never equal to the bare map name, and on `exdocE` (which already holds
`workshop/12345/de_dust2`) adding bare `de_dust2` inserts a second entry, so
the block then lists both keys. -/
theorem duplicate_detection_key_exact :
    (∀ (n w : Line), w ≠ [] → format_map_key n (some w) ≠ format_map_key n none) ∧
    add_map_doc exdocE ("mg_x").data ("de_dust2").data none ("end").data
      = .ok (exdocE1, true) ∧
    ("workshop/12345/de_dust2").data ∈ current_maps_in_block exdocE1 6 8 ∧
    ("de_dust2").data ∈ current_maps_in_block exdocE1 6 8 := by
  refine ⟨?_, by rfl, by decide, by decide⟩
  intro n w hw heq
  have ht : truthy (some w) = true := by
    unfold truthy
    cases w with
    | nil => exact absurd rfl hw
    | cons c cs => rfl
  unfold format_map_key at heq
  rw [if_pos ht, if_neg (by decide)] at heq
  have hlen := congrArg List.length heq
  simp only [List.length_append, List.length_cons, Option.getD_some] at hlen
  omega

/-- Witness for claim C5: `workshop/12345/de_dust2` and `de_dust2` are
distinct keys. -/
theorem duplicate_detection_key_exact_witness :
    format_map_key ("de_dust2").data (some (("12345").data))
      ≠ format_map_key ("de_dust2").data none :=
  duplicate_detection_key_exact.1 (("de_dust2").data) (("12345").data) (by decide)

/-- Counterexample to claim C6 as stated: an empty (but present) primary
file is parsed, and the scan fails with SectionNotFound, not MissingFile. -/
theorem empty_file_counterexample :
    add_map_to_group ⟨some [], none, none⟩ ("mg_x").data ("de_a").data none false ("end").data
      = .error .sectionNotFound ∧
    AddMapError.sectionNotFound ≠ AddMapError.missingFile :=
  ⟨rfl, by decide⟩

/-- Claim C6, amended. A missing primary file fails with MissingFile before
any parsing; an empty primary file is read as zero lines, parsed, and fails
with SectionNotFound. -/
theorem missing_or_empty_primary_file (fs : FS) (g n : Line) (wid : Option Line)
    (dry : Bool) (pos : Line) :
    (fs.gamemodes = none → add_map_to_group fs g n wid dry pos = .error .missingFile) ∧
    (fs.gamemodes = some [] →
      add_map_to_group fs g n wid dry pos = .error .sectionNotFound) := by
  constructor
  · intro h
    unfold add_map_to_group
    rw [h]
    rfl
  · intro h
    unfold add_map_to_group
    rw [h]
    rfl

/-- Witness for claim C6 (amended): both file states at concrete arguments. -/
theorem missing_or_empty_primary_file_witness :
    add_map_to_group ⟨none, none, none⟩ ("mg_x").data ("de_a").data none false ("end").data
      = .error .missingFile ∧
    add_map_to_group ⟨some [], none, none⟩ ("mg_x").data ("de_a").data none false ("end").data
      = .error .sectionNotFound :=
  ⟨(missing_or_empty_primary_file ⟨none, none, none⟩ ("mg_x").data ("de_a").data none false
      (("end").data)).1 rfl,
   (missing_or_empty_primary_file ⟨some [], none, none⟩ ("mg_x").data ("de_a").data none false
      (("end").data)).2 rfl⟩

theorem findGroupAux_none (gq : Line) :
    ∀ (L : List Line) (i : Nat) (d : Int),
      (∀ l ∈ L, gq.isPrefixOf (strip l) = false) → findGroupAux gq L i d = none := by
  intro L
  induction L with
  | nil => intro i d h; rfl
  | cons x xs ih =>
    intro i d h
    rw [findGroupAux]
    by_cases hd : d > 0
    · rw [if_pos hd,
        if_neg (by rw [h x (List.mem_cons_self _ _)]; exact Bool.false_ne_true)]
      exact ih (i + 1) _ (fun l hl => h l (List.mem_cons_of_mem x hl))
    · rw [if_neg hd]

/-- Claim C7, amended. When the mapgroups header and its opening brace are
found but the quoted group name heads no line of the document, the locate
operation fails with GroupNotFound — also when the mapgroups block is
unterminated (brace depth staying positive to the end of the document);
MalformedSection is reserved for a missing opening brace. -/
theorem unterminated_section_group_not_found (doc : Document) (g : Line) (i0 ib : Nat)
    (h1 : scanFirst isMapgroupsLine doc 0 = some i0)
    (h2 : scanFirst hasBrace doc (i0 + 1) = some ib)
    (h3 : depthStaysPos (doc.drop (ib + 1)) 1 = true)
    (h4 : ∀ l ∈ doc, (quoted g).isPrefixOf (strip l) = false) :
    find_group_and_maps_block doc g = .error .groupNotFound := by
  unfold find_group_and_maps_block
  simp only [h1, h2]
  have hnone : findGroupFrom doc (quoted g) (ib + 1) 1 = none := by
    unfold findGroupFrom
    exact findGroupAux_none (quoted g) _ _ _ (fun l hl => h4 l (List.drop_subset _ _ hl))
  simp only [hnone]

/-- Witness for claim C7 (amended) on the unterminated document `exdocC`. -/
theorem unterminated_section_group_not_found_witness :
    depthStaysPos (exdocC.drop 2) 1 = true ∧
    find_group_and_maps_block exdocC ("mg_missing").data = .error .groupNotFound := by
  refine ⟨rfl, ?_⟩
  exact unterminated_section_group_not_found exdocC ("mg_missing").data 0 1 rfl rfl rfl
    (by decide)

/-- Counterexample to claim C7 as stated: `exdocC` has an opening brace and
an unterminated mapgroups block, yet locating a missing group yields
GroupNotFound, not MalformedSection. -/
theorem unterminated_section_counterexample :
    scanFirst isMapgroupsLine exdocC 0 = some 0 ∧
    scanFirst hasBrace exdocC 1 = some 1 ∧
    depthStaysPos (exdocC.drop 2) 1 = true ∧
    find_group_and_maps_block exdocC ("mg_missing").data = .error .groupNotFound ∧
    AddMapError.groupNotFound ≠ AddMapError.malformedSection :=
  ⟨rfl, rfl, rfl, rfl, by decide⟩

/-- Dry-run and wet-run `finishWorkshop` agree on the outcome, and the dry
run returns its file system unchanged, whenever the two input file systems
hold the same subscription file. -/
theorem finishWorkshop_dry (fsD fsW : FS) (ins : Bool) (wid : Option Line)
    (hsub : fsW.subscribed = fsD.subscribed) :
    finishWorkshop fsD ins wid true
      = (finishWorkshop fsW ins wid false).map (fun p => (fsD, p.2)) := by
  obtain ⟨dg, db, ds⟩ := fsD
  obtain ⟨wg, wb, ws⟩ := fsW
  have hs : ws = ds := hsub
  subst hs
  unfold finishWorkshop
  by_cases ht : truthy wid
  · rw [if_pos ht, if_pos ht]
    by_cases hm : (wid.getD []) ∈ existingIds ws
    · have hD : add_workshop_id ws (wid.getD []) true = (ws, false) := by
        unfold add_workshop_id
        rw [if_pos hm]
      have hW : add_workshop_id ws (wid.getD []) false = (ws, false) := by
        unfold add_workshop_id
        rw [if_pos hm]
      simp only [hD, hW, Except.map]
    · have hD : add_workshop_id ws (wid.getD []) true = (ws, true) := by
        unfold add_workshop_id
        rw [if_neg hm, if_pos rfl]
      have hW : add_workshop_id ws (wid.getD []) false
          = (some (ws.getD [] ++ (wid.getD []) ++ ['\n']), true) := by
        unfold add_workshop_id
        rw [if_neg hm, if_neg Bool.false_ne_true]
      simp only [hD, hW, Except.map]
  · rw [if_neg ht, if_neg ht]
    simp only [Except.map]

/-- Claim C8. With dry-run enabled no file changes: the run returns the
input file system unchanged, erroring exactly when the wet run errors and
reporting exactly the outcome flags the wet run on the same initial files
reports. -/
theorem dry_run_pure (fs : FS) (g n : Line) (wid : Option Line) (pos : Line) :
    add_map_to_group fs g n wid true pos
      = (add_map_to_group fs g n wid false pos).map (fun p => (fs, p.2)) := by
  obtain ⟨fg, fb, fsb⟩ := fs
  unfold add_map_to_group
  dsimp only
  cases hr : read_lines fg with
  | error e => simp only [hr, Except.map]
  | ok lines =>
    simp only [hr]
    cases hf : find_group_and_maps_block lines g with
    | error e => simp only [hf, Except.map]
    | ok q =>
      obtain ⟨gs, ms, me, ind⟩ := q
      simp only [hf]
      by_cases hmem : format_map_key n wid ∈ current_maps_in_block lines ms me
      · rw [if_pos hmem, if_pos hmem]
        exact finishWorkshop_dry ⟨fg, fb, fsb⟩ ⟨fg, fb, fsb⟩ false wid rfl
      · rw [if_neg hmem, if_neg hmem]
        rw [if_pos trivial, if_neg Bool.false_ne_true]
        exact finishWorkshop_dry ⟨fg, fb, fsb⟩ _ true wid rfl

theorem splitlinesNoKeep_ne_nil (l : Line) (h : l ≠ []) : splitlinesNoKeep l ≠ [] := by
  cases l with
  | nil => exact absurd rfl h
  | cons c cs =>
    rw [splitlinesNoKeep]
    by_cases hc : c = '\n'
    · rw [if_pos hc]
      simp
    · rw [if_neg hc]
      cases hs : splitlinesNoKeep cs with
      | nil => simp
      | cons a b => simp

theorem splitlinesNoKeep_append : ∀ (x y : Line),
    (x = [] ∨ x.getLast? = some '\n') →
    splitlinesNoKeep (x ++ y) = splitlinesNoKeep x ++ splitlinesNoKeep y := by
  intro x
  induction x with
  | nil => intro y hx; rfl
  | cons c cs ih =>
    intro y hx
    rcases hx with hx | hx
    · exact absurd hx (by simp)
    · cases cs with
      | nil =>
        have hc : c = '\n' := by simpa using hx
        subst hc
        rw [List.cons_append, splitlinesNoKeep, if_pos rfl]
        rfl
      | cons c2 cs2 =>
        have hx2 : (c2 :: cs2).getLast? = some '\n' := by
          rw [List.getLast?_cons_cons] at hx
          exact hx
        have ih2 := ih y (Or.inr hx2)
        rw [List.cons_append, splitlinesNoKeep]
        by_cases hc : c = '\n'
        · subst hc
          rw [if_pos rfl, ih2,
            show splitlinesNoKeep ('\n' :: c2 :: cs2)
              = [] :: splitlinesNoKeep (c2 :: cs2) from by rw [splitlinesNoKeep, if_pos rfl]]
          rfl
        · rw [if_neg hc, ih2]
          have hne := splitlinesNoKeep_ne_nil (c2 :: cs2) (by simp)
          cases hs : splitlinesNoKeep (c2 :: cs2) with
          | nil => exact absurd hs hne
          | cons a b =>
            rw [splitlinesNoKeep, if_neg hc, hs]
            rfl

theorem splitlinesNoKeep_token : ∀ (t : Line), '\n' ∉ t →
    splitlinesNoKeep (t ++ ['\n']) = [t] := by
  intro t
  induction t with
  | nil => intro h; rfl
  | cons c cs ih =>
    intro hn
    have hc : c ≠ '\n' := fun h => hn (by rw [h]; exact List.mem_cons_self _ _)
    rw [List.cons_append, splitlinesNoKeep, if_neg hc,
      ih (fun h => hn (List.mem_cons_of_mem c h))]

/-- Claim C9, amended. For a token that is nonempty, newline-free and equal
to its trimmed form, and a list file that is absent, empty, or
newline-terminated: appending to an absent or empty file creates the file
as exactly the one token line; a token already present as a trimmed
non-blank line causes no write; otherwise the token plus a terminator is
appended after the existing content, and a second append of the same token
is a no-op. (For arbitrary files the no-op part fails, see the
counterexample.) -/
theorem add_workshop_id_spec (t : Line) (ht1 : t ≠ []) (ht2 : '\n' ∉ t)
    (ht3 : strip t = t) :
    (add_workshop_id none t false = (some (t ++ ['\n']), true) ∧
     add_workshop_id (some []) t false = (some (t ++ ['\n']), true) ∧
     splitlinesNoKeep (t ++ ['\n']) = [t]) ∧
    (∀ c : Option Line, t ∈ existingIds c → add_workshop_id c t false = (c, false)) ∧
    (∀ c : Option Line, t ∉ existingIds c →
      (c.getD [] = [] ∨ (c.getD []).getLast? = some '\n') →
      add_workshop_id c t false = (some (c.getD [] ++ t ++ ['\n']), true) ∧
      add_workshop_id (some (c.getD [] ++ t ++ ['\n'])) t false
        = (some (c.getD [] ++ t ++ ['\n']), false)) := by
  have htE : t.isEmpty = false := by
    cases t with
    | nil => exact absurd rfl ht1
    | cons a b => rfl
  refine ⟨⟨?_, ?_, splitlinesNoKeep_token t ht2⟩, ?_, ?_⟩
  · unfold add_workshop_id
    rw [if_neg (by simp [existingIds, splitlinesNoKeep]), if_neg Bool.false_ne_true]
    rfl
  · unfold add_workshop_id
    rw [if_neg (by simp [existingIds, splitlinesNoKeep]), if_neg Bool.false_ne_true]
    rfl
  · intro c hm
    unfold add_workshop_id
    rw [if_pos hm]
  · intro c hm hterm
    constructor
    · unfold add_workshop_id
      rw [if_neg hm, if_neg Bool.false_ne_true]
    · have hmem2 : t ∈ existingIds (some (c.getD [] ++ t ++ ['\n'])) := by
        unfold existingIds
        rw [Option.getD_some, List.append_assoc, splitlinesNoKeep_append _ _ hterm,
          splitlinesNoKeep_token t ht2, List.map_append, List.filter_append]
        refine List.mem_append_right _ ?_
        simp only [List.map_cons, List.map_nil, ht3]
        rw [List.filter_cons, if_pos (by rw [htE]; rfl)]
        exact List.mem_cons_self _ _
      unfold add_workshop_id
      rw [if_pos hmem2]

/-- Witness for claim C9 (amended): Workshop ID `3070284539` against an
absent file, appended then re-appended. -/
theorem add_workshop_id_spec_witness :
    add_workshop_id none ("3070284539").data false
      = (some (("3070284539\n").data), true) ∧
    add_workshop_id (some (("3070284539\n").data)) ("3070284539").data false
      = (some (("3070284539\n").data), false) := by
  have h := add_workshop_id_spec ("3070284539").data (by decide) (by decide) (by decide)
  exact ⟨h.1.1, (h.2.2 none (by decide) (Or.inl rfl)).2⟩

/-- Counterexample to claim C9 as stated: appending `456` to a file whose
content `999` lacks a trailing terminator merges with the last line, so a
second append of `456` writes again instead of being a no-op. -/
theorem append_no_terminator_counterexample :
    add_workshop_id (some (("999").data)) ("456").data false
      = (some (("999456\n").data), true) ∧
    add_workshop_id (some (("999456\n").data)) ("456").data false
      = (some (("999456\n456\n").data), true) ∧
    (("999456\n456\n") : String).data ≠ (("999456\n") : String).data :=
  ⟨rfl, rfl, by decide⟩

/-- Claim C10. An empty-string workshop id behaves exactly like no workshop
id: the computed key is the bare map name, the whole operation coincides
with the no-id operation, and that operation neither changes the
subscription file nor reports a subscription outcome. -/
theorem empty_workshop_id_like_none (fs : FS) (g n : Line) (dry : Bool) (pos : Line) :
    format_map_key n (some []) = format_map_key n none ∧
    add_map_to_group fs g n (some []) dry pos = add_map_to_group fs g n none dry pos ∧
    (∀ fs1 out, add_map_to_group fs g n none dry pos = .ok (fs1, out) →
      fs1.subscribed = fs.subscribed ∧ out.2 = none) := by
  refine ⟨rfl, rfl, ?_⟩
  intro fs1 out h
  obtain ⟨fg, fb, fsb⟩ := fs
  unfold add_map_to_group at h
  dsimp only at h
  cases hr : read_lines fg with
  | error e => simp [hr] at h
  | ok lines =>
    simp only [hr] at h
    cases hf : find_group_and_maps_block lines g with
    | error e => simp [hf] at h
    | ok q =>
      obtain ⟨gs, ms, me, ind⟩ := q
      simp only [hf] at h
      unfold finishWorkshop at h
      rw [if_neg (by decide : ¬ (truthy none = true)),
        if_neg (by decide : ¬ (truthy none = true))] at h
      by_cases hmem : format_map_key n none ∈ current_maps_in_block lines ms me
      · rw [if_pos hmem] at h
        rw [Except.ok.injEq, Prod.mk.injEq] at h
        obtain ⟨h1, h2⟩ := h
        subst h1
        subst h2
        exact ⟨rfl, rfl⟩
      · rw [if_neg hmem] at h
        rw [Except.ok.injEq, Prod.mk.injEq] at h
        obtain ⟨h1, h2⟩ := h
        subst h1
        subst h2
        cases dry with
        | true => exact ⟨rfl, rfl⟩
        | false => exact ⟨rfl, rfl⟩

/-- Witness for claim C10: a concrete successful run without a workshop id
leaves the subscription file untouched and reports no subscription
outcome. -/
theorem empty_workshop_id_like_none_witness :
    add_map_to_group ⟨some (joinDoc exdocA), none, none⟩ ("mg_x").data ("de_b").data none
        false ("end").data
      = .ok (⟨some (joinDoc exdocA1), some (joinDoc exdocA), none⟩, (true, none)) ∧
    (⟨some (joinDoc exdocA1), some (joinDoc exdocA), none⟩ : FS).subscribed
      = (⟨some (joinDoc exdocA), none, none⟩ : FS).subscribed ∧
    ((true : Bool), (none : Option Bool)).2 = none := by
  have hrun : add_map_to_group ⟨some (joinDoc exdocA), none, none⟩ ("mg_x").data
      ("de_b").data none false ("end").data
      = .ok (⟨some (joinDoc exdocA1), some (joinDoc exdocA), none⟩, (true, none)) := by rfl
  have hthm := empty_workshop_id_like_none ⟨some (joinDoc exdocA), none, none⟩
    ("mg_x").data ("de_b").data false ("end").data
  exact ⟨hrun, hthm.2.2 _ _ hrun⟩

end AddMap
